import Mathlib

/-!
Verification of the nuclide include-resolution search
(`pkg/nuclide-clang/lib/utils.js`) and the test-runner activation helpers
(`limitString`, `Activation.addTestRunner`).

JavaScript strings are modelled as `List Char` (`JStr`); the Node `path`
module (posix flavour) is embedded directly from its documented semantics,
since the source calls it as an external library.  The RxJS pipeline of
`findIncludingSourceFile` is embedded as a function over the finite list of
process messages delivered by the underlying process observer.
-/

/-- JavaScript string, modelled as a list of characters. -/
abbrev JStr := List Char

/- ### Node `path` (posix) primitives used by `utils.js` -/

/-- Drop the trailing occurrences of `c` from `l`. -/
def dropTrailing (c : Char) (l : JStr) : JStr :=
  (l.reverse.dropWhile (fun x => x == c)).reverse

/-- Split a path into its `/`-separated segments (empty segments kept,
mirroring a character-wise scan of the path). -/
def splitSlash : JStr → List JStr
  | [] => [[]]
  | c :: rest =>
    if c = '/' then [] :: splitSlash rest
    else
      match splitSlash rest with
      | h :: t => (c :: h) :: t
      | [] => [[c]]

/-- Core of Node's `normalizeString`: fold path segments, dropping empty
and `.` segments, resolving `..` against the stack; `allowAbove` keeps
leading `..` segments (relative paths) instead of dropping them (absolute
paths).  The accumulator holds the processed segments in reverse. -/
def normStack (allowAbove : Bool) : List JStr → List JStr → List JStr
  | acc, [] => acc.reverse
  | acc, seg :: rest =>
    if seg = [] ∨ seg = ['.'] then normStack allowAbove acc rest
    else if seg = ['.', '.'] then
      match acc with
      | top :: acc2 =>
        if top = ['.', '.'] then normStack allowAbove (seg :: top :: acc2) rest
        else normStack allowAbove acc2 rest
      | [] => if allowAbove then normStack allowAbove [seg] rest else normStack allowAbove [] rest
    else normStack allowAbove (seg :: acc) rest

/-- Node `path.normalize` (posix). -/
def pathNormalize (p : JStr) : JStr :=
  if p = [] then ['.']
  else
    let isAbs := p.head? = some '/'
    let trailing := p.getLast? = some '/'
    let segs := normStack (!decide isAbs) [] (splitSlash p)
    let core := List.intercalate ['/'] segs
    if core = [] then
      if isAbs then ['/'] else if trailing then ['.', '/'] else ['.']
    else
      (if isAbs then '/' :: core else core) ++ (if trailing then ['/'] else [])

/-- Node `path.join` restricted to two arguments (the arity used by the
source): concatenate the non-empty parts with `/` and normalize. -/
def pathJoin (a b : JStr) : JStr :=
  match ([a, b].filter (fun x => !x.isEmpty)) with
  | [] => ['.']
  | parts => pathNormalize (List.intercalate ['/'] parts)

/-- Node `path.dirname` (posix): everything before the last separator that
precedes the basename, ignoring trailing separators; the scan never treats
index 0 as that separator. -/
def pathDirname (p : JStr) : JStr :=
  if p = [] then ['.']
  else
    let hasRoot := p.head? = some '/'
    let t := dropTrailing '/' p
    let bl := (t.reverse.takeWhile (fun c => c ≠ '/')).length
    if bl = t.length then (if hasRoot then ['/'] else ['.'])
    else
      let e := t.length - bl - 1
      if e = 0 then ['/']
      else if e = 1 ∧ hasRoot then ['/', '/']
      else t.take e

/-- Node `path.basename` (posix), without the optional suffix argument. -/
def pathBasename (p : JStr) : JStr :=
  let t := dropTrailing '/' p
  if t = [] then (if p = [] then [] else ['/'])
  else (t.reverse.takeWhile (fun c => c ≠ '/')).reverse

/-- Node `path.extname` (posix): the suffix of the basename starting at its
last dot, unless that dot is the basename's first character, the basename
has no dot, or the basename is `..`. -/
def extname (p : JStr) : JStr :=
  let b := ((dropTrailing '/' p).reverse.takeWhile (fun c => c ≠ '/')).reverse
  if b = ['.', '.'] then []
  else
    let k := b.length - (b.reverse.takeWhile (fun c => c ≠ '.')).length
    if k ≤ 1 then [] else b.drop (k - 1)

/-- Drop the common leading segments of two segment lists. -/
def dropCommon : List JStr → List JStr → List JStr × List JStr
  | x :: xs, y :: ys => if x = y then dropCommon xs ys else (x :: xs, y :: ys)
  | xs, ys => (xs, ys)

/-- Node `path.relative` (posix) for absolute arguments: resolve both
paths, drop the common segment prefix, climb with `..` segments and descend
into the remainder of the target.  (Relative arguments would be resolved
against the process working directory in Node; here they are processed as
given, i.e. as if the working directory were `/`.) -/
def pathRelative (f t : JStr) : JStr :=
  let fs := normStack false [] (splitSlash f)
  let ts := normStack false [] (splitSlash t)
  let p := dropCommon fs ts
  List.intercalate ['/'] (List.replicate p.1.length ['.', '.'] ++ p.2)

/- ### Extension classification (`utils.js` lines 21-30) -/

/-- `HEADER_EXTENSIONS` from `utils.js`. -/
def HEADER_EXTENSIONS : List JStr :=
  [".h".data, ".hh".data, ".hpp".data, ".hxx".data, ".h++".data]

/-- `SOURCE_EXTENSIONS` from `utils.js`. -/
def SOURCE_EXTENSIONS : List JStr :=
  [".c".data, ".cc".data, ".cpp".data, ".cxx".data, ".c++".data, ".m".data, ".mm".data]

/-- `isHeaderFile` from `utils.js`: membership of `path.extname(filename)`
in the header-extension set. -/
def isHeaderFile (filename : JStr) : Bool :=
  decide (extname filename ∈ HEADER_EXTENSIONS)

/-- `isSourceFile` from `utils.js`: membership of `path.extname(filename)`
in the source-extension set. -/
def isSourceFile (filename : JStr) : Bool :=
  decide (extname filename ∈ SOURCE_EXTENSIONS)

/- ### `limitString` (test-runner activation module, lines 33-38) -/

/-- `limitString(str, length)` from the test-runner activation module
(JS default for `length` is 20; callers here always pass it explicitly).
In JS the second half is `str.substring(str.length - length / 2)` where
`length / 2` is float division and `substring` truncates its argument
toward zero, so for odd `length` the start index `str.length - length / 2`
loses its fractional `.5` and the kept suffix has `⌈length / 2⌉`
characters. -/
def limitString (str : JStr) (length : Nat) : JStr :=
  if str.length > length then
    str.take (length / 2) ++ '…' :: str.drop (str.length - length / 2 - length % 2)
  else str

/-- The last `n` characters of `s`. -/
def takeLast (n : Nat) (s : JStr) : JStr :=
  s.drop (s.length - n)

/- ### `Activation.addTestRunner` (test-runner activation module, lines 125-149) -/

/-- `Activation.addTestRunner`: on a registry state (the `_testRunners`
set), either return no disposable and the unchanged set (runner already
present), or the new set together with the disposal action, which deletes
the runner from whatever set it is applied to. -/
def addTestRunner {α : Type} [DecidableEq α] (runners : Finset α) (t : α) :
    Option (Finset α → Finset α) × Finset α :=
  if t ∈ runners then (none, runners)
  else (some (fun s => s.erase t), insert t runners)

/- ### The include regex (`utils.js` lines 75-78)

`findIncludingSourceFile` builds
`pattern = ^\s*#include\s+["<](REL|(../)*BASE)[">]\s*$`
where `REL = escapeStringRegExp(path.relative(projectRoot, headerFile))`
and `BASE = escapeStringRegExp(path.basename(headerFile))`.  Escaping makes
the two path components match literally, while the dots of the `(../)`
group are NOT escaped: in the compiled JS regex `(../)` matches any two
non-line-terminator characters followed by `/`.  `execIncludeRegex rel
base` embeds `regex.exec` for this pattern: leading `\s*` and the `\s+`
after `#include` are forced-maximal (the characters that must follow are
never whitespace), the first alternative is a literal-prefix test, and the
greedy star of the second alternative is realised by longest-first
backtracking over the number of consumed three-character segments. -/

/-- JS `\s` (the whitespace characters relevant here). -/
def isJsSpace (c : Char) : Bool :=
  c == ' ' || c == '\t' || c == '\n' || c == '\r' || c == '\x0b' ||
  c == '\x0c' || c == '\u00a0' || c == '\u2028' || c == '\u2029' || c == '\ufeff'

/-- JS `.` (anything but a line terminator). -/
def isDotChar (c : Char) : Bool :=
  !(c == '\n' || c == '\r' || c == '\u2028' || c == '\u2029')

/-- The two capture groups of the include pattern: group 1 is the full
alternation match (the include path), group 2 the last iteration of the
`(../)` group (absent when the first alternative matched or the star
iterated zero times). -/
structure RegexMatch where
  group1 : JStr
  group2 : Option JStr
deriving DecidableEq, Repr

/-- `[">]\s*$`: one closing character followed by whitespace to the end. -/
def closeTail : JStr → Bool
  | [] => false
  | c :: rest => (c == '"' || c == '>') && rest.all isJsSpace

/-- First alternative: the literal root-relative path. -/
def tryRel (rel : JStr) (body : JStr) : Option RegexMatch :=
  if rel.isPrefixOf body && closeTail (body.drop rel.length) then
    some ⟨rel, none⟩
  else none

/-- End of the second alternative: the literal basename, closed by
`[">]\s*$`.  `consumed` are the segments matched so far. -/
def tryBase (base consumed : JStr) (lastSeg : Option JStr) (body : JStr) :
    Option RegexMatch :=
  if base.isPrefixOf body && closeTail (body.drop base.length) then
    some ⟨consumed ++ base, lastSeg⟩
  else none

/-- Greedy `(../)*BASE` with backtracking: prefer consuming another
three-character segment `⟨any, any, '/'⟩`; on failure of the rest, match
the basename at the current position. -/
def trySegs (base : JStr) : JStr → Option JStr → JStr → Option RegexMatch
  | consumed, lastSeg, c1 :: c2 :: c3 :: rest =>
    if c3 == '/' && isDotChar c1 && isDotChar c2 then
      match trySegs base (consumed ++ [c1, c2, c3]) (some [c1, c2, c3]) rest with
      | some m => some m
      | none => tryBase base consumed lastSeg (c1 :: c2 :: c3 :: rest)
    else tryBase base consumed lastSeg (c1 :: c2 :: c3 :: rest)
  | consumed, lastSeg, body => tryBase base consumed lastSeg body

/-- `regex.exec(line)` for the include pattern (see the section comment). -/
def execIncludeRegex (rel base : JStr) (line : JStr) : Option RegexMatch :=
  let r1 := line.dropWhile isJsSpace
  if ("#include".data).isPrefixOf r1 then
    match r1.drop 8 with
    | [] => none
    | c :: r2 =>
      if isJsSpace c then
        match r2.dropWhile isJsSpace with
        | [] => none
        | q :: body =>
          if q == '"' || q == '<' then
            match tryRel rel body with
            | some m => some m
            | none => trySegs base [] none body
          else none
      else none
  else none

/- ### `processGrepResult` (`utils.js` lines 32-58) -/

/-- `result.indexOf(c)` / `substr` pair: split `result` at the first
occurrence of `c` (the part before, the part after), or `none` when `c`
does not occur. -/
def splitFirst (c : Char) : JStr → Option (JStr × JStr)
  | [] => none
  | x :: xs =>
    if x = c then some ([], xs)
    else (splitFirst c xs).map (fun p => (x :: p.1, p.2))

/-- `processGrepResult(result, headerFile, includeRegex)`: split the grep
output line at the first null byte into filename and matched text, require
a source-file extension, re-run the include regex, and for relative-form
matches (capture group 2 present) require the resolved include path to be
exactly the header file. -/
def processGrepResult (result headerFile : JStr)
    (includeRegex : JStr → Option RegexMatch) : Option JStr :=
  match splitFirst '\x00' result with
  | none => none
  | some (filename, rest) =>
    if !isSourceFile filename then none
    else
      match includeRegex rest with
      | none => none
      | some m =>
        match m.group2 with
        | some _ =>
          if pathNormalize (pathJoin (pathDirname filename) m.group1) = headerFile then
            some filename
          else none
        | none => some filename

/- ### The observable pipeline (`utils.js` lines 89-103) -/

/-- A tagged event from the process observer (`observeProcess`):
`stdout` and `stderr` lines, a runtime `error`, or process `exit`. -/
inductive ProcessMessage : Type
  | stdout (data : JStr)
  | stderr (data : JStr)
  | error (err : JStr)
  | exit (code : Nat)
deriving DecidableEq, Repr

/-- The value emitted by the search observable: the including source file
(`Found`) or the `null` emitted on exit (`NotFound`). -/
inductive SearchResult : Type
  | found (filename : JStr)
  | notFound
deriving DecidableEq, Repr

/-- The `flatMap`/`take(1)` pipeline of `findIncludingSourceFile`, run
over the finite list of messages the process observer delivers, in order:
a surviving `stdout` line emits the filename and completes (`take(1)`
unsubscribes, so later messages are irrelevant); an `error` message throws,
terminating the stream with that error; `exit` emits `null` and completes;
other messages (`stderr`) emit nothing.  The result is the list of emitted
`SearchResult`s together with the terminal error, if any. -/
def searchStep (headerFile : JStr) (includeRegex : JStr → Option RegexMatch) :
    List ProcessMessage → List SearchResult × Option JStr
  | [] => ([], none)
  | .stdout d :: rest =>
    match processGrepResult d headerFile includeRegex with
    | some f => ([.found f], none)
    | none => searchStep headerFile includeRegex rest
  | .error e :: _ => ([], some e)
  | .exit _ :: _ => ([.notFound], none)
  | .stderr _ :: rest => searchStep headerFile includeRegex rest

/-- `findIncludingSourceFile(headerFile, projectRoot)` applied to the
messages of its spawned grep process: the pattern components are built
with `path.relative` and `path.basename`, and the stream is the
`searchStep` pipeline over the process messages. -/
def findIncludingSourceFile (headerFile projectRoot : JStr)
    (msgs : List ProcessMessage) : List SearchResult × Option JStr :=
  searchStep headerFile
    (execIncludeRegex (pathRelative projectRoot headerFile) (pathBasename headerFile))
    msgs

/-- The first `stdout` line before the first `exit` whose processed result
survives filtering, if any. -/
def firstSurvivor (headerFile : JStr) (includeRegex : JStr → Option RegexMatch) :
    List ProcessMessage → Option JStr
  | [] => none
  | .stdout d :: rest =>
    match processGrepResult d headerFile includeRegex with
    | some f => some f
    | none => firstSurvivor headerFile includeRegex rest
  | .exit _ :: _ => none
  | .error _ :: rest => firstSurvivor headerFile includeRegex rest
  | .stderr _ :: rest => firstSurvivor headerFile includeRegex rest

/-- Is the message a runtime `error` event? -/
def isErrorMsg : ProcessMessage → Bool
  | .error _ => true
  | _ => false

/-- Is the message an `exit` event? -/
def isExitMsg : ProcessMessage → Bool
  | .exit _ => true
  | _ => false

/- ### The underlying process run, for the error-propagation claim -/

/-- A run of the spawned search process: either the spawn itself failed,
or the process ran, producing stdout lines and then either an I/O error or
an exit code. -/
inductive ProcessRun : Type
  | spawnFailure (err : JStr)
  | ran (lines : List JStr) (ioError : Option JStr) (exitCode : Nat)
deriving DecidableEq, Repr

/-- The stdout lines of a run. -/
def stdoutLines : ProcessRun → List JStr
  | .spawnFailure _ => []
  | .ran lines _ _ => lines

/-- Did the run report a runtime failure (spawn failure, I/O error, or
nonzero exit)? -/
def runFailed : ProcessRun → Bool
  | .spawnFailure _ => true
  | .ran _ ioError exitCode => ioError.isSome || exitCode != 0

/-- The error text used for a nonzero exit. -/
def nonzeroExitMessage : JStr := "process exited with nonzero code".data

/-- Modelled from the spec: `observeProcess` (from `nuclide-commons`, not
part of the sources) delivers tagged events for a process run — stdout
lines as `stdout` messages, and per spec sections 6 and 7 a spawn failure,
an I/O error, or a nonzero exit code as a fatal `error` event, a zero exit
as the terminal `exit` event. -/
def observeProcessSpec : ProcessRun → List ProcessMessage
  | .spawnFailure e => [.error e]
  | .ran lines ioError exitCode =>
    lines.map ProcessMessage.stdout ++
      match ioError with
      | some e => [.error e]
      | none =>
        if exitCode != 0 then [.error nonzeroExitMessage] else [.exit exitCode]

/-- A grep output line `#include "H"` (the shape used in the examples and
round-trip statements). -/
def incLine (H : JStr) : JStr :=
  '#' :: 'i' :: 'n' :: 'c' :: 'l' :: 'u' :: 'd' :: 'e' :: ' ' :: '"' :: (H ++ ['"'])

/-- The characters of k literal `../` segments. -/
def segsRep : Nat → JStr
  | 0 => []
  | k + 1 => '.' :: '.' :: '/' :: segsRep k

/-- The characters of a list of three-character `XY/` segments. -/
def segsOf : List (Char × Char) → JStr
  | [] => []
  | (a, b) :: ps => a :: b :: '/' :: segsOf ps

example : extname "a/b.h".data = ".h".data := by decide
example : extname "/x/.h".data = [] := by decide
example : extname "a.tar.gz".data = ".gz".data := by decide
example : pathDirname "/p/s/a.c".data = "/p/s".data := by decide
example : pathBasename "/p/b.h".data = "b.h".data := by decide
example : pathNormalize "/p/s/../b.h".data = "/p/b.h".data := by decide
example : pathJoin "/p/s".data "../b.h".data = "/p/b.h".data := by decide
example : pathRelative "/z".data "/a/sub/b.h".data = "../a/sub/b.h".data := by decide
example : pathRelative "/p".data "/p/b.h".data = "b.h".data := by decide
example : limitString "foobar".data 4 = "fo…ar".data := by decide
example : limitString "foobar".data 5 = "fo…bar".data := by decide
example : isSourceFile "/p/a.c".data = true := by decide
example : isHeaderFile "/p/b.h".data = true := by decide

/- ### Helper lemmas -/

theorem splitFirst_of_not_mem {c : Char} {l : JStr} (h : c ∉ l) :
    splitFirst c l = none := by
  induction l with
  | nil => rfl
  | cons x xs ih =>
    simp only [List.mem_cons, not_or] at h
    simp [splitFirst, Ne.symm h.1, ih h.2]

theorem splitFirst_append {c : Char} {l r : JStr} (h : c ∉ l) :
    splitFirst c (l ++ c :: r) = some (l, r) := by
  induction l with
  | nil => simp [splitFirst]
  | cons x xs ih =>
    simp only [List.mem_cons, not_or] at h
    simp [splitFirst, Ne.symm h.1, ih h.2]

theorem isPrefixOf_self_append (l t : JStr) : l.isPrefixOf (l ++ t) = true := by
  induction l with
  | nil => simp [List.isPrefixOf]
  | cons x xs ih => simp [List.isPrefixOf, ih]

theorem drop_self_append (l t : JStr) : (l ++ t).drop l.length = t := by
  induction l with
  | nil => rfl
  | cons x xs ih => simp [ih]

theorem tryBase_self (base consumed : JStr) (lastSeg : Option JStr) :
    tryBase base consumed lastSeg (base ++ ['"']) = some ⟨consumed ++ base, lastSeg⟩ := by
  simp [tryBase, isPrefixOf_self_append, drop_self_append, closeTail]

theorem tryRel_some {rel body : JStr} {m : RegexMatch} (h : tryRel rel body = some m) :
    m = ⟨rel, none⟩ := by
  unfold tryRel at h
  split at h
  · exact (Option.some_inj.mp h).symm
  · exact absurd h (by simp)

theorem trySegs_tiles (base : JStr) (hb : '/' ∉ base) :
    ∀ (ps : List (Char × Char)),
    (∀ p ∈ ps, isDotChar p.1 = true ∧ isDotChar p.2 = true) →
    ∀ (consumed : JStr) (lastSeg : Option JStr),
    trySegs base consumed lastSeg (segsOf ps ++ (base ++ ['"'])) =
      some ⟨consumed ++ (segsOf ps ++ base),
        match ps.getLast? with
        | none => lastSeg
        | some pr => some [pr.1, pr.2, '/']⟩ := by
  intro ps
  induction ps with
  | nil =>
    intro _ consumed lastSeg
    simp only [segsOf, List.nil_append, List.getLast?_nil]
    match base, hb with
    | [], _ =>
      simp [trySegs, tryBase, closeTail]
    | [b0], _ =>
      simp [trySegs, tryBase, List.isPrefixOf, closeTail]
    | [b0, b1], _ =>
      simp [trySegs, tryBase, List.isPrefixOf, closeTail]
    | b0 :: b1 :: b2 :: bs, hb =>
      have hb2 : (b2 == '/') = false := by
        simp only [List.mem_cons, not_or] at hb
        exact beq_eq_false_iff_ne.mpr (fun h => hb.2.2.1 h.symm)
      have := tryBase_self (b0 :: b1 :: b2 :: bs) consumed lastSeg
      simp only [List.cons_append, List.nil_append] at this ⊢
      simp [trySegs, hb2, this]
  | cons p ps' ih =>
    intro hdots consumed lastSeg
    obtain ⟨a, b⟩ := p
    have hd := hdots (a, b) (List.mem_cons_self _ _)
    simp only [segsOf, List.cons_append]
    rw [show ((a :: b :: '/' :: (segsOf ps' ++ (base ++ ['"']))) : JStr) =
      a :: b :: '/' :: (segsOf ps' ++ (base ++ ['"'])) from rfl]
    simp only [trySegs, hd.1, hd.2, beq_self_eq_true, Bool.and_self, Bool.true_and,
      Bool.and_true, if_true]
    rw [ih (fun q hq => hdots q (List.mem_cons_of_mem _ hq)) (consumed ++ [a, b, '/']) (some [a, b, '/'])]
    cases ps' with
    | nil => simp [segsOf]
    | cons q qs =>
      simp only [List.getLast?_cons_cons, List.append_assoc]
      rcases h : (q :: qs).getLast? with _ | pr
      · exact absurd h (by simp)
      · simp [h]

theorem exec_incLine (rel base H : JStr) :
    execIncludeRegex rel base (incLine H) =
      (match tryRel rel (H ++ ['"']) with
       | some m => some m
       | none => trySegs base [] none (H ++ ['"'])) := rfl

theorem processGrepResult_some {result headerFile f : JStr}
    {includeRegex : JStr → Option RegexMatch}
    (h : processGrepResult result headerFile includeRegex = some f) :
    ∃ rest m, splitFirst '\x00' result = some (f, rest) ∧
      isSourceFile f = true ∧ includeRegex rest = some m ∧
      ∀ g, m.group2 = some g →
        pathNormalize (pathJoin (pathDirname f) m.group1) = headerFile := by
  unfold processGrepResult at h
  split at h
  · exact absurd h (by simp)
  · rename_i filename rest hs
    split at h
    · exact absurd h (by simp)
    · rename_i hsf
      have hsf2 : isSourceFile filename = true := by
        revert hsf; cases isSourceFile filename <;> simp
      split at h
      · exact absurd h (by simp)
      · rename_i m hre
        split at h
        · rename_i g hg
          split at h
          · rename_i hchk
            obtain rfl : filename = f := by simpa using h
            exact ⟨rest, m, hs, hsf2, hre, fun g2 _ => hchk⟩
          · exact absurd h (by simp)
        · rename_i hg
          obtain rfl : filename = f := by simpa using h
          exact ⟨rest, m, hs, hsf2, hre, by simp [hg]⟩

theorem searchStep_skip_dead (headerFile : JStr) (re : JStr → Option RegexMatch)
    (lines : List JStr)
    (h : ∀ l ∈ lines, processGrepResult l headerFile re = none)
    (tail : List ProcessMessage) :
    searchStep headerFile re (lines.map ProcessMessage.stdout ++ tail) =
      searchStep headerFile re tail := by
  induction lines with
  | nil => rfl
  | cons l ls ih =>
    simp only [List.map_cons, List.cons_append, searchStep,
      h l (List.mem_cons_self _ _)]
    exact ih (fun x hx => h x (List.mem_cons_of_mem _ hx))

theorem searchStep_terminal (headerFile : JStr) (re : JStr → Option RegexMatch)
    (msgs : List ProcessMessage)
    (hne : msgs.all (fun m => !isErrorMsg m) = true)
    (hex : msgs.any isExitMsg = true) :
    searchStep headerFile re msgs =
      ([(firstSurvivor headerFile re msgs).elim SearchResult.notFound SearchResult.found],
        none) := by
  induction msgs with
  | nil => exact absurd hex (by simp)
  | cons m rest ih =>
    simp only [List.all_cons, Bool.and_eq_true] at hne
    cases m with
    | stdout d =>
      simp only [List.any_cons, isExitMsg, Bool.false_or] at hex
      rcases hp : processGrepResult d headerFile re with _ | f
      · simp only [searchStep, firstSurvivor, hp]
        exact ih hne.2 hex
      · simp [searchStep, firstSurvivor, hp]
    | stderr d =>
      simp only [List.any_cons, isExitMsg, Bool.false_or] at hex
      simp only [searchStep, firstSurvivor]
      exact ih hne.2 hex
    | error e => simp [isErrorMsg] at hne
    | exit c => simp [searchStep, firstSurvivor]

theorem searchStep_found_inv {headerFile f : JStr} {re : JStr → Option RegexMatch}
    {msgs : List ProcessMessage}
    (h : SearchResult.found f ∈ (searchStep headerFile re msgs).1) :
    ∃ d, ProcessMessage.stdout d ∈ msgs ∧ processGrepResult d headerFile re = some f := by
  induction msgs with
  | nil => simp [searchStep] at h
  | cons m rest ih =>
    cases m with
    | stdout d =>
      rcases hp : processGrepResult d headerFile re with _ | g
      · simp only [searchStep, hp] at h
        obtain ⟨d2, hd2, hp2⟩ := ih h
        exact ⟨d2, List.mem_cons_of_mem _ hd2, hp2⟩
      · simp only [searchStep, hp, List.mem_singleton, SearchResult.found.injEq] at h
        subst h
        exact ⟨d, List.mem_cons_self _ _, hp⟩
    | stderr d =>
      simp only [searchStep] at h
      obtain ⟨d2, hd2, hp2⟩ := ih h
      exact ⟨d2, List.mem_cons_of_mem _ hd2, hp2⟩
    | error e => simp [searchStep] at h
    | exit c => simp [searchStep] at h

/- ### The claims -/

/-- C1.  For every call to `findIncludingSourceFile` whose process message
stream contains no runtime `error` event and does contain an `exit` event,
the returned stream emits exactly one value and then completes without
error: the first stdout line whose processed result survives filtering is
emitted as `Found` (so at most one `Found` is ever emitted, and the
`take(1)` terminates the search there); if the process exits before any
surviving match, exactly one `NotFound` (the emitted `null`) is
produced. -/
theorem claim1_single_result (headerFile projectRoot : JStr)
    (msgs : List ProcessMessage)
    (hne : msgs.all (fun m => !isErrorMsg m) = true)
    (hex : msgs.any isExitMsg = true) :
    findIncludingSourceFile headerFile projectRoot msgs =
      ([(firstSurvivor headerFile
          (execIncludeRegex (pathRelative projectRoot headerFile)
            (pathBasename headerFile)) msgs).elim
        SearchResult.notFound SearchResult.found], none) :=
  searchStep_terminal headerFile _ msgs hne hex

theorem claim1_single_result_witness :
    findIncludingSourceFile "/p/b.h".data "/p".data
      [ProcessMessage.stderr "warning".data,
       ProcessMessage.stdout "garbage".data,
       ProcessMessage.exit 0] =
      ([(firstSurvivor "/p/b.h".data
          (execIncludeRegex (pathRelative "/p".data "/p/b.h".data)
            (pathBasename "/p/b.h".data))
          [ProcessMessage.stderr "warning".data,
           ProcessMessage.stdout "garbage".data,
           ProcessMessage.exit 0]).elim
        SearchResult.notFound SearchResult.found], none) :=
  claim1_single_result "/p/b.h".data "/p".data _ (by decide) (by decide)

/-- C2.  Every path emitted as a `Found` result by
`findIncludingSourceFile` satisfies `isSourceFile`, and whenever the
matched include line used the relative form (capture group 2 non-null),
normalizing the join of the matched file's directory with the captured
include path gives exactly `headerFile`; lines violating either condition
are never emitted. -/
theorem claim2_found_invariant (headerFile projectRoot f : JStr)
    (msgs : List ProcessMessage)
    (h : SearchResult.found f ∈ (findIncludingSourceFile headerFile projectRoot msgs).1) :
    isSourceFile f = true ∧
    ∃ d rest m, ProcessMessage.stdout d ∈ msgs ∧
      splitFirst '\x00' d = some (f, rest) ∧
      execIncludeRegex (pathRelative projectRoot headerFile)
        (pathBasename headerFile) rest = some m ∧
      ∀ g, m.group2 = some g →
        pathNormalize (pathJoin (pathDirname f) m.group1) = headerFile := by
  obtain ⟨d, hd, hp⟩ := searchStep_found_inv h
  obtain ⟨rest, m, hs, hsf, hre, hchk⟩ := processGrepResult_some hp
  exact ⟨hsf, d, rest, m, hd, hs, hre, hchk⟩

theorem claim2_found_invariant_witness :
    isSourceFile "/p/s/a.c".data = true ∧
    ∃ d rest m, ProcessMessage.stdout d ∈
        [ProcessMessage.stdout ("/p/s/a.c".data ++ '\x00' :: incLine "../b.h".data),
         ProcessMessage.exit 0] ∧
      splitFirst '\x00' d = some ("/p/s/a.c".data, rest) ∧
      execIncludeRegex (pathRelative "/q".data "/p/b.h".data)
        (pathBasename "/p/b.h".data) rest = some m ∧
      ∀ g, m.group2 = some g →
        pathNormalize (pathJoin (pathDirname "/p/s/a.c".data) m.group1) = "/p/b.h".data :=
  claim2_found_invariant "/p/b.h".data "/q".data "/p/s/a.c".data
    [ProcessMessage.stdout ("/p/s/a.c".data ++ '\x00' :: incLine "../b.h".data),
     ProcessMessage.exit 0] (by decide)

/-- C3.  If the underlying search process reports a runtime failure — a
spawn failure, an I/O error, or (as the spec prescribes for
`observeProcess`) a nonzero exit code — and no earlier stdout line
survives filtering, then the search terminates with an error and emits no
`SearchResult` at all (in particular, it does not emit `NotFound`). -/
theorem claim3_failure_propagates (headerFile projectRoot : JStr) (run : ProcessRun)
    (hfail : runFailed run = true)
    (hnone : (stdoutLines run).all
      (fun l => (processGrepResult l headerFile
        (execIncludeRegex (pathRelative projectRoot headerFile)
          (pathBasename headerFile))).isNone) = true) :
    ∃ e, findIncludingSourceFile headerFile projectRoot (observeProcessSpec run) =
      ([], some e) := by
  unfold findIncludingSourceFile
  cases run with
  | spawnFailure e => exact ⟨e, rfl⟩
  | ran lines ioError exitCode =>
    simp only [stdoutLines, List.all_eq_true, Option.isNone_iff_eq_none] at hnone
    cases ioError with
    | some e =>
      have hob : observeProcessSpec (.ran lines (some e) exitCode) =
          lines.map ProcessMessage.stdout ++ [ProcessMessage.error e] := by
        simp [observeProcessSpec]
      rw [hob, searchStep_skip_dead _ _ lines hnone]
      exact ⟨e, rfl⟩
    | none =>
      have hc : (exitCode != 0) = true := by
        simpa [runFailed] using hfail
      have hob : observeProcessSpec (.ran lines none exitCode) =
          lines.map ProcessMessage.stdout ++ [ProcessMessage.error nonzeroExitMessage] := by
        simp [observeProcessSpec, hc]
      rw [hob, searchStep_skip_dead _ _ lines hnone]
      exact ⟨nonzeroExitMessage, rfl⟩

theorem claim3_failure_propagates_witness :
    ∃ e, findIncludingSourceFile "/p/b.h".data "/p".data
      (observeProcessSpec (ProcessRun.ran ["junk line".data] none 2)) = ([], some e) :=
  claim3_failure_propagates "/p/b.h".data "/p".data
    (ProcessRun.ran ["junk line".data] none 2) (by decide) (by decide)

theorem getLast?_replicate_succ {α : Type} (k : Nat) (x : α) :
    (List.replicate (k + 1) x).getLast? = some x := by
  induction k with
  | zero => rfl
  | succ k ih =>
    rw [List.replicate_succ, List.replicate_succ, List.getLast?_cons_cons,
      ← List.replicate_succ]
    exact ih

theorem segsOf_replicate (k : Nat) :
    segsOf (List.replicate k ('.', '.')) = segsRep k := by
  induction k with
  | zero => rfl
  | succ k ih => rw [List.replicate_succ]; simp [segsOf, segsRep, ih]

/-- C4 counterexample.  The source file `/a/s.c` contains the line
`#include "sub/b.h"`, and `sub/b.h` resolved against the file's directory
is exactly the header `/a/sub/b.h`; yet with project root `/z` the search
does not yield `Found(/a/s.c)` — the include pattern matches neither
alternative (`sub/` is not a sequence of three-character `/`-terminated
segments and differs from the root-relative form), so the line is never a
candidate and the search reports `NotFound`. -/
theorem claim4_roundtrip_counterexample :
    isSourceFile "/a/s.c".data = true ∧
    pathNormalize (pathJoin (pathDirname "/a/s.c".data) "sub/b.h".data) =
      "/a/sub/b.h".data ∧
    findIncludingSourceFile "/a/sub/b.h".data "/z".data
      [ProcessMessage.stdout ("/a/s.c".data ++ '\x00' :: incLine "sub/b.h".data),
       ProcessMessage.exit 0] =
      ([SearchResult.notFound], none) := by
  decide

/-- C4, amended.  The round trip holds when the include path has one of
the shapes the built pattern can match — here, zero or more literal `../`
segments followed by the header's basename: if source file `S` (with a
source extension, no null byte in its path, and the header basename free
of `/`) contains the line `#include "H"` with `H = (../)^k ++ basename(P)`
and `H` resolved against `S`'s directory is exactly `P`, then for every
project root the search on that line yields `Found(S)`. -/
theorem claim4_roundtrip_amended (S P projectRoot : JStr) (k : Nat)
    (h0 : '\x00' ∉ S) (hsrc : isSourceFile S = true)
    (hb : '/' ∉ pathBasename P)
    (hres : pathNormalize (pathJoin (pathDirname S)
      (segsRep k ++ pathBasename P)) = P) :
    findIncludingSourceFile P projectRoot
      [ProcessMessage.stdout (S ++ '\x00' :: incLine (segsRep k ++ pathBasename P)),
       ProcessMessage.exit 0] =
      ([SearchResult.found S], none) := by
  have hdots : ∀ p ∈ List.replicate k (('.', '.') : Char × Char),
      isDotChar p.1 = true ∧ isDotChar p.2 = true := by
    intro p hp
    have hpe := List.eq_of_mem_replicate hp
    subst hpe
    exact ⟨by decide, by decide⟩
  have hpg : processGrepResult (S ++ '\x00' :: incLine (segsRep k ++ pathBasename P)) P
      (execIncludeRegex (pathRelative projectRoot P) (pathBasename P)) = some S := by
    unfold processGrepResult
    rw [splitFirst_append h0]
    dsimp only
    rw [hsrc]
    simp only [Bool.not_true, Bool.false_eq_true, if_false]
    rw [exec_incLine]
    rcases htr : tryRel (pathRelative projectRoot P)
        ((segsRep k ++ pathBasename P) ++ ['"']) with _ | m
    · dsimp only
      have hts := trySegs_tiles (pathBasename P) hb (List.replicate k ('.', '.'))
        hdots [] none
      rw [segsOf_replicate, ← List.append_assoc] at hts
      cases k with
      | zero =>
        simp only [List.replicate, List.getLast?_nil] at hts
        rw [hts]
      | succ k =>
        rw [getLast?_replicate_succ] at hts
        rw [hts]
        dsimp only
        simp only [List.nil_append]
        rw [if_pos hres]
    · have hm := tryRel_some htr
      subst hm
      dsimp only
  unfold findIncludingSourceFile
  simp only [searchStep, hpg]

theorem claim4_roundtrip_amended_witness :
    findIncludingSourceFile "/p/b.h".data "/z".data
      [ProcessMessage.stdout ("/p/s/a.c".data ++ '\x00' ::
        incLine (segsRep 1 ++ pathBasename "/p/b.h".data)),
       ProcessMessage.exit 0] =
      ([SearchResult.found "/p/s/a.c".data], none) :=
  claim4_roundtrip_amended "/p/s/a.c".data "/p/b.h".data "/z".data 1
    (by decide) (by decide) (by decide) (by decide)

/-- C6 counterexample.  For odd `length` the second half is not
integer-truncated: `limitString("foobar", 5)` keeps the last three
characters, giving `"fo…bar"`, not the `"fo…ar"` that truncating both
halves would produce. -/
theorem claim6_limit_string_counterexample :
    limitString "foobar".data 5 = "fo…bar".data ∧
    limitString "foobar".data 5 ≠ "fo".data ++ '…' :: "ar".data := by
  decide

/-- C6, amended.  `limitString(str, length)` is a pure function: when
`str.length > length` it returns the first `⌊length/2⌋` characters, an
ellipsis, and the last `⌈length/2⌉` characters — the suffix rounds UP for
odd `length`, because the JS `substring` start index
`str.length - length/2` truncates toward zero; otherwise it returns `str`
unchanged.  `limitString("foobar", 4) = "fo…ar"` and
`limitString("hi", 20) = "hi"` (20 is the JS default for `length`). -/
theorem claim6_limit_string_amended :
    (∀ (s : JStr) (l : Nat),
      limitString s l =
        if l < s.length then s.take (l / 2) ++ '…' :: takeLast ((l + 1) / 2) s
        else s) ∧
    limitString "foobar".data 4 = "fo…ar".data ∧
    limitString "hi".data 20 = "hi".data := by
  refine ⟨fun s l => ?_, by decide, by decide⟩
  unfold limitString takeLast
  have harith : s.length - l / 2 - l % 2 = s.length - (l + 1) / 2 := by omega
  rw [harith]

/-- C7.  `isHeaderFile` holds exactly when the extension is one of
`.h .hh .hpp .hxx .h++`, and `isSourceFile` exactly when the extension is
one of `.c .cc .cpp .cxx .c++ .m .mm`. -/
theorem claim7_extension_classification :
    ∀ f : JStr,
      (isHeaderFile f = true ↔
        (extname f = ".h".data ∨ extname f = ".hh".data ∨
         extname f = ".hpp".data ∨ extname f = ".hxx".data ∨
         extname f = ".h++".data)) ∧
      (isSourceFile f = true ↔
        (extname f = ".c".data ∨ extname f = ".cc".data ∨
         extname f = ".cpp".data ∨ extname f = ".cxx".data ∨
         extname f = ".c++".data ∨ extname f = ".m".data ∨
         extname f = ".mm".data)) := by
  intro f
  constructor <;>
    simp [isHeaderFile, isSourceFile, HEADER_EXTENSIONS, SOURCE_EXTENSIONS]

/-- C8.  A grep output line with no null-byte separator is processed to
the no-match result `none`, and such a `stdout` message leaves the search
stream unchanged — the malformed line is skipped without aborting, so a
correct match on a later line is still emitted. -/
theorem claim8_malformed_line_skipped (headerFile projectRoot bad : JStr)
    (rest : List ProcessMessage) (h : '\x00' ∉ bad) :
    processGrepResult bad headerFile
      (execIncludeRegex (pathRelative projectRoot headerFile)
        (pathBasename headerFile)) = none ∧
    findIncludingSourceFile headerFile projectRoot (ProcessMessage.stdout bad :: rest) =
      findIncludingSourceFile headerFile projectRoot rest := by
  have hpg : processGrepResult bad headerFile
      (execIncludeRegex (pathRelative projectRoot headerFile)
        (pathBasename headerFile)) = none := by
    unfold processGrepResult
    rw [splitFirst_of_not_mem h]
  refine ⟨hpg, ?_⟩
  unfold findIncludingSourceFile
  simp only [searchStep, hpg]

theorem claim8_malformed_line_skipped_witness :
    (processGrepResult "garbage".data "/p/b.h".data
      (execIncludeRegex (pathRelative "/p".data "/p/b.h".data)
        (pathBasename "/p/b.h".data)) = none ∧
    findIncludingSourceFile "/p/b.h".data "/p".data
      (ProcessMessage.stdout "garbage".data ::
        [ProcessMessage.stdout ("/p/a.c".data ++ '\x00' :: incLine "b.h".data),
         ProcessMessage.exit 0]) =
      findIncludingSourceFile "/p/b.h".data "/p".data
        [ProcessMessage.stdout ("/p/a.c".data ++ '\x00' :: incLine "b.h".data),
         ProcessMessage.exit 0]) ∧
    findIncludingSourceFile "/p/b.h".data "/p".data
      [ProcessMessage.stdout ("/p/a.c".data ++ '\x00' :: incLine "b.h".data),
       ProcessMessage.exit 0] =
      ([SearchResult.found "/p/a.c".data], none) :=
  ⟨claim8_malformed_line_skipped "/p/b.h".data "/p".data "garbage".data _ (by decide),
   by decide⟩

/-- C9.  The dots of the `(../)*` alternative are not regex-escaped, so
the pattern accepts include paths prefixed by ANY sequence of
three-character `/`-terminated segments (for example `#include "ab/b.h"`
matches, with capture group 2 = `ab/`); every match taken through that
alternative with at least one segment sets group 2 non-null, and a line
whose match has group 2 non-null is only ever emitted when the
resolved-path-equals-headerFile check passes. -/
theorem claim9_unescaped_dots :
    (∀ (rel base : JStr) (ps : List (Char × Char)),
      '/' ∉ base →
      (∀ p ∈ ps, isDotChar p.1 = true ∧ isDotChar p.2 = true) →
      tryRel rel (segsOf ps ++ base ++ ['"']) = none →
      execIncludeRegex rel base (incLine (segsOf ps ++ base)) =
        some ⟨segsOf ps ++ base,
          match ps.getLast? with
          | none => none
          | some pr => some [pr.1, pr.2, '/']⟩) ∧
    execIncludeRegex "x/y.h".data "b.h".data (incLine "ab/b.h".data) =
      some ⟨"ab/b.h".data, some "ab/".data⟩ ∧
    (∀ (result headerFile rel base f rest : JStr) (m : RegexMatch) (g : JStr),
      splitFirst '\x00' result = some (f, rest) →
      execIncludeRegex rel base rest = some m →
      m.group2 = some g →
      processGrepResult result headerFile (execIncludeRegex rel base) = some f →
      pathNormalize (pathJoin (pathDirname f) m.group1) = headerFile) := by
  refine ⟨?_, by decide, ?_⟩
  · intro rel base ps hb hdots htr
    rw [exec_incLine, htr]
    dsimp only
    have hts := trySegs_tiles base hb ps hdots [] none
    rw [← List.append_assoc] at hts
    rw [hts]
    simp only [List.nil_append]
  · intro result headerFile rel base f rest m g hs hre hg hpg
    obtain ⟨rest2, m2, hs2, _, hre2, hchk⟩ := processGrepResult_some hpg
    have hrr : rest = rest2 := by
      have := hs.symm.trans hs2
      simpa using this
    subst hrr
    have hmm : m = m2 := by
      have := hre.symm.trans hre2
      simpa using this
    subst hmm
    exact hchk g hg

theorem claim9_unescaped_dots_witness :
    execIncludeRegex "x/y.h".data "b.h".data (incLine "ab/b.h".data) =
      some ⟨"ab/b.h".data, some "ab/".data⟩ :=
  claim9_unescaped_dots.2.1

/-- C10.  `Activation.addTestRunner`: for a runner already registered it
returns no disposable and leaves the registry unchanged; otherwise it
registers the runner and returns a disposal action that deletes exactly
that runner, so disposing immediately restores the registry that existed
before the call. -/
theorem claim10_add_test_runner {α : Type} [DecidableEq α] (s : Finset α) (t : α) :
    (t ∈ s → addTestRunner s t = (none, s)) ∧
    (t ∉ s →
      addTestRunner s t = (some (fun s2 => s2.erase t), insert t s) ∧
      (insert t s).erase t = s) := by
  constructor
  · intro h
    unfold addTestRunner
    rw [if_pos h]
  · intro h
    exact ⟨by unfold addTestRunner; rw [if_neg h], Finset.erase_insert h⟩

theorem claim10_add_test_runner_witness :
    (addTestRunner ({3} : Finset Nat) 3 = (none, {3})) ∧
    (addTestRunner (∅ : Finset Nat) 4 = (some (fun s2 => s2.erase 4), insert 4 ∅) ∧
      (insert 4 (∅ : Finset Nat)).erase 4 = ∅) :=
  ⟨(claim10_add_test_runner {3} 3).1 (by decide),
   (claim10_add_test_runner ∅ 4).2 (by decide)⟩
